import Mathlib

/-!
Verification of the Kaczmarz iteration engine and its row-selection
strategies (the `kaczmarz` package), as a shallow embedding in Lean 4.

Numeric model: the Python code computes with IEEE floats; we embed the
algorithms over `ℚ`, so every algebraic identity is exact.  The Euclidean
norm itself (a square root) is irrational in general, so comparisons of
the form `norm v < tol` are embedded as the equivalent exact test
`0 < tol ∧ normSq v < tol²`, and the row norms produced by
`compute_row_norms` are characterised by their defining property
`0 ≤ r ∧ r² = normSq row` instead of being computed.

Vectors are `List ℚ`, matrices are row-lists `List (List ℚ)`, mirroring
the row-indexed access pattern of the source (`self._A[ik]`).
-/

namespace Kaczmarz

/-- Dot product of two vectors, `a @ x` in the source. -/
def dot (x y : List ℚ) : ℚ :=
  (List.zipWith (fun a b => a * b) x y).sum

/-- Squared Euclidean norm of a vector. -/
def normSqV (x : List ℚ) : ℚ := dot x x

/-- Matrix-vector product `A @ x`: one dot product per row. -/
def matVec (A : List (List ℚ)) (x : List ℚ) : List ℚ :=
  A.map (fun row => dot row x)

@[simp] theorem dot_nil_left (y : List ℚ) : dot [] y = 0 := rfl

@[simp] theorem dot_nil_right (x : List ℚ) : dot x [] = 0 := by
  cases x <;> rfl

@[simp] theorem dot_cons_cons (a b : ℚ) (x y : List ℚ) :
    dot (a :: x) (b :: y) = a * b + dot x y := by
  simp [dot]

/-- `Base._update_iterate` (src/kaczmarz/_abc.py lines 209-226):
`return xk + (bi - ai @ xk) * ai`, elementwise over the vector. -/
def update_iterate (ai : List ℚ) (bi : ℚ) (xk : List ℚ) : List ℚ :=
  List.zipWith (fun xj aj => xj + (bi - dot ai xk) * aj) xk ai

theorem dot_add_smul (a : List ℚ) (r : ℚ) :
    ∀ x : List ℚ, a.length = x.length →
      dot a (List.zipWith (fun xj aj => xj + r * aj) x a) =
        dot a x + r * dot a a := by
  induction a with
  | nil => intro x _; simp
  | cons ah tl ih =>
    intro x hx
    cases x with
    | nil => simp at hx
    | cons xh xt =>
      simp only [List.length_cons, Nat.succ.injEq] at hx
      simp only [List.zipWith_cons_cons, dot_cons_cons, ih xt hx]
      ring

/-- C1: a single projection update with a unit-norm row lands exactly on the
hyperplane of the selected equation: `ai · (xk + (bi - ai·xk) ai) = bi`. -/
theorem update_iterate_on_hyperplane (ai xk : List ℚ) (bi : ℚ)
    (hlen : ai.length = xk.length) (hunit : dot ai ai = 1) :
    dot ai (update_iterate ai bi xk) = bi := by
  unfold update_iterate
  rw [dot_add_smul ai (bi - dot ai xk) xk hlen, hunit]
  ring

/-- Witness for C1 at the concrete unit-norm row `[3/5, 4/5]`, `bi = 7`,
`xk = [1, 2]`. -/
theorem update_iterate_on_hyperplane_witness :
    dot [(3 : ℚ)/5, 4/5] (update_iterate [(3 : ℚ)/5, 4/5] 7 [1, 2]) = 7 :=
  update_iterate_on_hyperplane [(3 : ℚ)/5, 4/5] [1, 2] 7 (by rfl)
    (by norm_num [dot])

/-! ## System normalization (src/kaczmarz/_normalize.py) -/

/-- `compute_row_norms` returns the Euclidean norm of every row.  Square
roots are irrational in general, so the model characterises the result by
its defining property: `r` is the row-norm vector of `A` iff it has one
entry per row and each entry is the nonnegative square root of the row's
squared norm. -/
def IsRowNorms (A : List (List ℚ)) (r : List ℚ) : Prop :=
  r.length = A.length ∧
    ∀ i, i < A.length → 0 ≤ r.getD i 0 ∧ (r.getD i 0) ^ 2 = normSqV (A.getD i [])

/-- `normalize_matrix` (src/kaczmarz/_normalize.py lines 23-40):
`sp.diags(1 / row_norms) @ A`, i.e. row `i` is scaled by `1 / row_norms[i]`. -/
def normalize_matrix (A : List (List ℚ)) (rowNorms : List ℚ) : List (List ℚ) :=
  List.zipWith (fun ri row => row.map (fun aij => (1 / ri) * aij)) rowNorms A

/-- `normalize_system` (src/kaczmarz/_normalize.py lines 43-65): scale the
rows of `A` to norm 1, divide `b` elementwise by the row norms, and return
the row norms alongside.  The row-norm vector is passed in, constrained by
`IsRowNorms` at the call sites (see the module docstring). -/
def normalize_system (A : List (List ℚ)) (b : List ℚ) (rowNorms : List ℚ) :
    List (List ℚ) × List ℚ × List ℚ :=
  (normalize_matrix A rowNorms, List.zipWith (fun bi ri => bi / ri) b rowNorms, rowNorms)

theorem normSqV_map_mul (c : ℚ) (row : List ℚ) :
    normSqV (row.map (fun aij => c * aij)) = c ^ 2 * normSqV row := by
  induction row with
  | nil => simp [normSqV]
  | cons h t ih =>
    simp only [List.map_cons, normSqV, dot_cons_cons] at *
    rw [ih]; ring

theorem getD_zipWith {α β γ : Type} (f : α → β → γ) (da : α) (db : β) (dc : γ) :
    ∀ (as' : List α) (bs : List β) (i : ℕ), i < as'.length → i < bs.length →
      (List.zipWith f as' bs).getD i dc = f (as'.getD i da) (bs.getD i db) := by
  intro as'
  induction as' with
  | nil => intro bs i h _; simp at h
  | cons ah tl ih =>
    intro bs i h1 h2
    cases bs with
    | nil => simp at h2
    | cons bh bt =>
      cases i with
      | zero => rfl
      | succ j =>
        simp only [List.length_cons, Nat.succ_lt_succ_iff] at h1 h2
        simpa using ih bt j h1 h2

/-- C5: for a system with no zero-norm row, `normalize_system` returns
`(A', b', r)` where every row of `A'` has squared Euclidean norm 1 (hence
norm 1), `b'[i] = b[i] / r[i]`, and `r` is exactly the vector of original
row norms of `A`. -/
theorem normalize_system_spec (A : List (List ℚ)) (b r : List ℚ)
    (hr : IsRowNorms A r) (hb : b.length = A.length)
    (hnz : ∀ i, i < A.length → r.getD i 0 ≠ 0) :
    (normalize_system A b r).2.2 = r ∧
    ∀ i, i < A.length →
      normSqV ((normalize_system A b r).1.getD i []) = 1 ∧
      (normalize_system A b r).2.1.getD i 0 = b.getD i 0 / r.getD i 0 := by
  obtain ⟨hrlen, hrspec⟩ := hr
  refine ⟨rfl, fun i hi => ⟨?_, ?_⟩⟩
  · have h1 : i < r.length := by omega
    have h2 : i < A.length := hi
    show normSqV ((List.zipWith (fun ri row => row.map fun aij => 1 / ri * aij) r A).getD i []) = 1
    rw [getD_zipWith _ (0 : ℚ) ([] : List ℚ) ([] : List ℚ) r A i h1 h2]
    rw [normSqV_map_mul]
    obtain ⟨hpos, hsq⟩ := hrspec i hi
    rw [← hsq]
    have hne := hnz i hi
    rw [one_div, ← mul_pow, inv_mul_cancel₀ hne, one_pow]
  · have h1 : i < b.length := by omega
    have h2 : i < r.length := by omega
    show (List.zipWith (fun bi ri => bi / ri) b r).getD i 0 = b.getD i 0 / r.getD i 0
    rw [getD_zipWith _ (0 : ℚ) (0 : ℚ) (0 : ℚ) b r i h1 h2]

/-- Witness for C5 at `A = [[3, 4]]`, `b = [10]`, `r = [5]` (row norm
`√(9+16) = 5`). -/
theorem normalize_system_spec_witness :
    (normalize_system [[(3 : ℚ), 4]] [10] [5]).2.2 = [5] ∧
    ∀ i, i < ([[(3 : ℚ), 4]] : List (List ℚ)).length →
      normSqV ((normalize_system [[(3 : ℚ), 4]] [10] [5]).1.getD i []) = 1 ∧
      (normalize_system [[(3 : ℚ), 4]] [10] [5]).2.1.getD i 0 =
        ([(10 : ℚ)].getD i 0) / ([(5 : ℚ)].getD i 0) :=
  normalize_system_spec [[(3 : ℚ), 4]] [10] [5]
    ⟨by rfl, by
      intro i hi
      have hi0 : i = 0 := by simpa using hi
      subst hi0
      norm_num [normSqV, dot]⟩
    (by rfl)
    (by
      intro i hi
      have hi0 : i = 0 := by simpa using hi
      subst hi0
      norm_num)

/-! ## The iteration engine `Base` (src/kaczmarz/_abc.py) -/

/-- The value of `self._ik`: strategies return either a single row index
(possibly the skip sentinel `-1`) or, for batched strategies such as
`ParallelOrthoUpdate`, a list of row indices. -/
inductive IkVal where
  | idx : Int → IkVal
  | batch : List Int → IkVal
deriving DecidableEq

/-- Python's `self._ik != -1` test in `Base.__next__`: an `int` compares by
value; a `list` is never equal to the integer `-1`. -/
def ikIsSkip : IkVal → Bool
  | .idx i => i == -1
  | .batch _ => false

/-- The immutable configuration of a `Base` engine after `__init__`:
the normalized system, `x0`, `tol`, `maxiter`, and the (possibly stateful)
row-selection hook `_select_row_index`, with strategy state `σ`. -/
structure EngineCfg (σ : Type) where
  A : List (List ℚ)
  b : List ℚ
  x0 : List ℚ
  tol : Option ℚ
  maxiter : ℚ
  select : σ → List ℚ → IkVal × σ

/-- The mutable fields of a `Base` engine: `_k`, `_ik`, `_xk`, plus the
strategy's own state. -/
structure EngineState (σ : Type) where
  k : Int
  ik : IkVal
  xk : Option (List ℚ)
  strat : σ
deriving DecidableEq

/-- `Base.__init__` postlude (src/kaczmarz/_abc.py lines 82-84):
`self._k = -1`, `self._ik = -1`, `self._xk = None`. -/
def initState {σ : Type} (s0 : σ) : EngineState σ :=
  ⟨-1, .idx (-1), none, s0⟩

/-- The public `ik` accessor (src/kaczmarz/_abc.py lines 86-91). -/
def ikAccessor {σ : Type} (s : EngineState σ) : IkVal := s.ik

/-- Exact embedding of `norm(residual) < tol` over ℚ: since the Euclidean
norm is nonnegative, `norm v < t ↔ 0 < t ∧ normSq v < t²`. -/
def normLtTol (nsq t : ℚ) : Bool :=
  decide (0 < t) && decide (nsq < t * t)

/-- The squared norm of `b - A @ x`, the residual used by
`Base._stopping_criterion`. -/
def residualNormSq (A : List (List ℚ)) (b x : List ℚ) : ℚ :=
  normSqV (List.zipWith (fun bi axi => bi - axi) b (matVec A x))

/-- The tolerance clause of `Base._stopping_criterion`: false when `tol`
is `None`, else the residual-norm test. -/
def tol_triggered {σ : Type} (cfg : EngineCfg σ) (x : List ℚ) : Bool :=
  match cfg.tol with
  | none => false
  | some t => normLtTol (residualNormSq cfg.A cfg.b x) t

/-- `Base._stopping_criterion` (src/kaczmarz/_abc.py lines 228-253):
stop when `k >= maxiter`, or when `tol` is set and the residual norm is
below it. -/
def stopping_criterion {σ : Type} (cfg : EngineCfg σ) (k : Int) (x : List ℚ) : Bool :=
  decide (cfg.maxiter ≤ (k : ℚ)) || tol_triggered cfg x

/-- `Base._update_iterate` dispatched on the value of `ik`: a single index
does one projection; `ParallelOrthoUpdate._update_iterate`
(src/kaczmarz/_variants.py lines 370-376) folds the single-row update over
the batch in order. -/
def applyUpdate {σ : Type} (cfg : EngineCfg σ) (ik : IkVal) (x : List ℚ) : List ℚ :=
  match ik with
  | .idx i => update_iterate (cfg.A.getD i.toNat []) (cfg.b.getD i.toNat 0) x
  | .batch l =>
      l.foldl (fun xc i => update_iterate (cfg.A.getD i.toNat []) (cfg.b.getD i.toNat 0) xc) x

/-- Result of one `__next__` call: either a yielded iterate (recording the
value returned and the value the callback was invoked with — in the source
both are copies of the new `self.xk`) together with the post-call state,
or a `StopIteration` carrying the (unchanged) state. -/
inductive StepResult (σ : Type) where
  | yielded (returned callbackArg : List ℚ) (s : EngineState σ)
  | stopIteration (s : EngineState σ)
deriving DecidableEq

/-- `Base.__next__` (src/kaczmarz/_abc.py lines 162-188). -/
def next {σ : Type} (cfg : EngineCfg σ) (s : EngineState σ) : StepResult σ :=
  if s.k = -1 then
    .yielded cfg.x0 cfg.x0 { s with k := s.k + 1, xk := some cfg.x0 }
  else
    let x := s.xk.getD []
    if stopping_criterion cfg s.k x then
      .stopIteration s
    else
      let sel := cfg.select s.strat x
      let x' := if ikIsSkip sel.1 then x else applyUpdate cfg sel.1 x
      .yielded x' x' ⟨s.k + 1, sel.1, some x', sel.2⟩

/-- `Base.__iter__` (src/kaczmarz/_abc.py lines 190-192): `return self`,
no state is touched. -/
def iterEngine {σ : Type} (s : EngineState σ) : EngineState σ := s

/-- Run `n` consecutive `__next__` calls; `none` as soon as one of them
raises `StopIteration`. -/
def nextN {σ : Type} (cfg : EngineCfg σ) : ℕ → EngineState σ → Option (EngineState σ)
  | 0, s => some s
  | n + 1, s =>
      match next cfg s with
      | .yielded _ _ s' => nextN cfg n s'
      | .stopIteration _ => none

/-! ## C2: maxiter gives exactly `maxiter` advances -/

theorem nextN_active {σ : Type} (cfg : EngineCfg σ) (K : ℕ)
    (hmax : cfg.maxiter = (K : ℚ)) (htol : ∀ x, tol_triggered cfg x = false) :
    ∀ (n : ℕ) (s : EngineState σ) (j : ℕ), s.k = (j : Int) → j + n ≤ K →
      ∃ s', nextN cfg n s = some s' ∧ s'.k = ((j + n : ℕ) : Int) := by
  intro n
  induction n with
  | zero =>
    intro s j hj _
    exact ⟨s, rfl, by simpa using hj⟩
  | succ n ih =>
    intro s j hj hle
    have hkne : ¬ s.k = -1 := by rw [hj]; omega
    have hstop : stopping_criterion cfg s.k (s.xk.getD []) = false := by
      rw [stopping_criterion, htol, Bool.or_false, hmax, hj]
      simp only [decide_eq_false_iff_not, not_le]
      exact_mod_cast (by omega : (j : Int) < (K : Int))
    have hnext : next cfg s =
        .yielded (if ikIsSkip (cfg.select s.strat (s.xk.getD [])).1 then s.xk.getD []
                  else applyUpdate cfg (cfg.select s.strat (s.xk.getD [])).1 (s.xk.getD []))
          (if ikIsSkip (cfg.select s.strat (s.xk.getD [])).1 then s.xk.getD []
           else applyUpdate cfg (cfg.select s.strat (s.xk.getD [])).1 (s.xk.getD []))
          ⟨s.k + 1, (cfg.select s.strat (s.xk.getD [])).1,
            some (if ikIsSkip (cfg.select s.strat (s.xk.getD [])).1 then s.xk.getD []
                  else applyUpdate cfg (cfg.select s.strat (s.xk.getD [])).1 (s.xk.getD [])),
            (cfg.select s.strat (s.xk.getD [])).2⟩ := by
      rw [next, if_neg hkne, if_neg (by rw [hstop]; exact Bool.false_ne_true)]
    obtain ⟨s', h1, h2⟩ := ih ⟨s.k + 1, (cfg.select s.strat (s.xk.getD [])).1,
        some (if ikIsSkip (cfg.select s.strat (s.xk.getD [])).1 then s.xk.getD []
              else applyUpdate cfg (cfg.select s.strat (s.xk.getD [])).1 (s.xk.getD [])),
        (cfg.select s.strat (s.xk.getD [])).2⟩
      (j + 1) (by simp [hj]) (by omega)
    refine ⟨s', ?_, by rw [h2]; congr 1; omega⟩
    rw [nextN, hnext]
    exact h1

/-- C2: with `maxiter = K` (a positive integer) and a tolerance criterion
that never triggers, the engine performs the initial yield of `x0` plus
exactly `K` successful advances (`K + 1` successful `__next__` calls in
all), and the `(K+1)`-th advance — the `(K+2)`-th call — raises
`StopIteration`, leaving the state untouched. -/
theorem maxiter_exact_advances {σ : Type} (cfg : EngineCfg σ) (s0 : σ) (K : ℕ)
    (hK : 1 ≤ K) (hmax : cfg.maxiter = (K : ℚ))
    (htol : ∀ x, tol_triggered cfg x = false) :
    ∃ s, nextN cfg (K + 1) (initState s0) = some s ∧ s.k = (K : Int) ∧
      next cfg s = .stopIteration s := by
  have hfirst : next cfg (initState s0) =
      .yielded cfg.x0 cfg.x0 ⟨0, .idx (-1), some cfg.x0, s0⟩ := by
    rw [next]; rfl
  obtain ⟨s, h1, h2⟩ := nextN_active cfg K hmax htol K
    ⟨0, .idx (-1), some cfg.x0, s0⟩ 0 rfl (by omega)
  refine ⟨s, ?_, by simpa using h2, ?_⟩
  · rw [nextN, hfirst]
    simpa using h1
  · have hkne : ¬ s.k = -1 := by rw [h2]; omega
    have hstop : stopping_criterion cfg s.k (s.xk.getD []) = true := by
      rw [stopping_criterion, h2, hmax]
      simp
    rw [next, if_neg hkne, if_pos hstop]

/-- Concrete engine used by several witnesses: the 1×1 system `A = [[1]]`,
`b = [1]`, `x0 = [0]`, `tol = None`, and a selector that always picks
row 0 (as `Cyclic` would on one row). -/
def cfgRowZero (maxiter : ℚ) : EngineCfg Unit :=
  { A := [[1]], b := [1], x0 := [0], tol := none, maxiter := maxiter,
    select := fun s _ => (.idx 0, s) }

/-- Witness for C2 at `maxiter = 1` on `cfgRowZero`. -/
theorem maxiter_exact_advances_witness :
    ∃ s, nextN (cfgRowZero 1) (1 + 1) (initState ()) = some s ∧ s.k = ((1 : ℕ) : Int) ∧
      next (cfgRowZero 1) s = .stopIteration s :=
  maxiter_exact_advances (cfgRowZero 1) () 1 (by decide) (by norm_num [cfgRowZero])
    (fun x => rfl)

/-! ## C3: skip semantics of the `-1` sentinel -/

/-- C3: on an advance where the selector returns the sentinel `-1`, the
iterate is unchanged, the counter `k` is still incremented, the callback is
still invoked with the (unchanged) iterate, and the public `ik` accessor
afterwards reports `-1`. -/
theorem skip_step_frame {σ : Type} (cfg : EngineCfg σ) (s : EngineState σ) (x : List ℚ)
    (hk : 0 ≤ s.k) (hx : s.xk = some x)
    (hstop : stopping_criterion cfg s.k x = false)
    (hsel : (cfg.select s.strat x).1 = .idx (-1)) :
    ∃ s', next cfg s = .yielded x x s' ∧
      s'.xk = s.xk ∧ s'.k = s.k + 1 ∧ ikAccessor s' = .idx (-1) := by
  have hkne : ¬ s.k = -1 := by omega
  have hget : s.xk.getD [] = x := by rw [hx]; rfl
  have hskip : ikIsSkip (cfg.select s.strat x).1 = true := by
    rw [hsel]; rfl
  refine ⟨⟨s.k + 1, (cfg.select s.strat x).1, some x, (cfg.select s.strat x).2⟩, ?_,
    by simp [hx], rfl, by rw [ikAccessor, hsel]⟩
  rw [next, if_neg hkne]
  simp only [hget, hstop, Bool.false_eq_true, if_false, hskip, if_true]

/-- Witness for C3: `cfgRowZero` with the selector replaced by one that
always refuses (`-1`), in the active state after the initial yield. -/
def cfgAlwaysSkip : EngineCfg Unit :=
  { A := [[1]], b := [1], x0 := [0], tol := none, maxiter := 5,
    select := fun s _ => (.idx (-1), s) }

theorem skip_step_frame_witness :
    ∃ s', next cfgAlwaysSkip ⟨0, .idx (-1), some [0], ()⟩ = .yielded [0] [0] s' ∧
      s'.xk = (⟨0, .idx (-1), some [0], ()⟩ : EngineState Unit).xk ∧
      s'.k = (⟨0, .idx (-1), some [0], ()⟩ : EngineState Unit).k + 1 ∧
      ikAccessor s' = .idx (-1) :=
  skip_step_frame cfgAlwaysSkip ⟨0, .idx (-1), some [0], ()⟩ [0] (by decide) rfl
    (by
      rw [stopping_criterion]
      norm_num [cfgAlwaysSkip, tol_triggered])
    rfl

/-! ## C4: behaviour of re-iteration after termination -/

/-- Helper predicate: a `__next__` outcome is a `StopIteration`. -/
def isStop {σ : Type} : StepResult σ → Bool
  | .stopIteration _ => true
  | .yielded _ _ _ => false

/-- The engine state reached by `cfgRowZero 0` after its single successful
call (the initial yield of `x0`). -/
def terminatedRowZero : EngineState Unit := ⟨0, .idx (-1), some [0], ()⟩

/-- Counterexample to C4: on the 1×1 engine with `maxiter = 0`, the first
call yields `x0` and the second raises `StopIteration`; requesting
iteration again (`__iter__`, which just returns `self`) does *not* reset
the state to `k = -1`, and the next advance raises `StopIteration` again
instead of producing `x0`. -/
theorem iter_after_stop_counterexample :
    next (cfgRowZero 0) (initState ()) =
      .yielded [0] [0] terminatedRowZero ∧
    next (cfgRowZero 0) terminatedRowZero = .stopIteration terminatedRowZero ∧
    (iterEngine terminatedRowZero).k ≠ -1 ∧
    isStop (next (cfgRowZero 0) (iterEngine terminatedRowZero)) = true := by
  refine ⟨?_, ?_, by decide, ?_⟩
  · rw [next]; rfl
  · rw [next, if_neg (by decide)]
    rw [if_pos ?_]
    rw [stopping_criterion]
    norm_num [cfgRowZero, terminatedRowZero]
  · rw [iterEngine, next, if_neg (by decide)]
    rw [if_pos ?_, isStop]
    rw [stopping_criterion]
    norm_num [cfgRowZero, terminatedRowZero]

/-- C4 amended: `__iter__` returns the same object with no state change, so
after a `StopIteration` the engine is *not* restarted: re-iterating leaves
`k` and `xk` exactly as they were, and every further advance raises
`StopIteration` again with the state untouched. -/
theorem iter_after_stop_repeats {σ : Type} (cfg : EngineCfg σ)
    (s s' : EngineState σ) (h : next cfg s = .stopIteration s') :
    s' = s ∧ iterEngine s' = s' ∧
      next cfg (iterEngine s') = .stopIteration s' := by
  have hs : s' = s := by
    rw [next] at h
    by_cases hk : s.k = -1
    · rw [if_pos hk] at h; exact absurd h (by simp)
    · rw [if_neg hk] at h
      by_cases hstop : stopping_criterion cfg s.k (s.xk.getD []) = true
      · rw [if_pos hstop] at h
        cases h; rfl
      · rw [if_neg hstop] at h; exact absurd h (by simp)
  subst hs
  exact ⟨rfl, rfl, h⟩

/-- Witness for the amended C4, applying it to the terminated
`cfgRowZero 0` engine. -/
theorem iter_after_stop_repeats_witness :
    terminatedRowZero = terminatedRowZero ∧
      iterEngine terminatedRowZero = terminatedRowZero ∧
      next (cfgRowZero 0) (iterEngine terminatedRowZero) =
        .stopIteration terminatedRowZero :=
  iter_after_stop_repeats (cfgRowZero 0) terminatedRowZero terminatedRowZero
    (by
      rw [next, if_neg (by decide)]
      rw [if_pos ?_]
      rw [stopping_criterion]
      norm_num [cfgRowZero, terminatedRowZero])

/-! ## C6: construction-time validation of `tol` / `maxiter` -/

/-- How `Base.__init__` resolves `maxiter`: either the value passed, or,
when only `tol` is given, a heuristic derived from `tol`
(`2 log(tol) / log(1 - 1/(10 min(A.shape)))`; the formula is real-valued,
so the model records which `tol` it was derived from). -/
inductive MaxiterResolved where
  | given : ℚ → MaxiterResolved
  | derivedFromTol : ℚ → MaxiterResolved
deriving DecidableEq

/-- The `tol` / `maxiter` validation in `Base.__init__`
(src/kaczmarz/_abc.py lines 61-71): if `maxiter` is `None`, derive it from
`tol` when `tol` is set, else raise `ValueError`. -/
def resolveMaxiter (tol maxiter : Option ℚ) : Except String MaxiterResolved :=
  match maxiter with
  | some m => .ok (.given m)
  | none =>
      match tol with
      | some t => .ok (.derivedFromTol t)
      | none => .error "At least one of tol or maxiter must be specified."

/-- C6: construction fails exactly when both `tol` and `maxiter` are
`None`; in every other case it succeeds, and when only `tol` is given the
`maxiter` in force is the one derived from `tol`. -/
theorem resolveMaxiter_spec :
    (∃ msg, resolveMaxiter none none = .error msg) ∧
    (∀ t m : ℚ, resolveMaxiter (some t) (some m) = .ok (.given m)) ∧
    (∀ m : ℚ, resolveMaxiter none (some m) = .ok (.given m)) ∧
    (∀ t : ℚ, resolveMaxiter (some t) none = .ok (.derivedFromTol t)) :=
  ⟨⟨"At least one of tol or maxiter must be specified.", rfl⟩,
    fun _ _ => rfl, fun _ => rfl, fun _ => rfl⟩

/-! ## C7: the Cyclic strategy (src/kaczmarz/_variants.py lines 13-35) -/

/-- `Cyclic.__init__`: `order = range(self._n_rows)` when no custom order is
supplied. -/
def cyclicDefaultOrder (nRows : ℕ) : List Int :=
  (List.range nRows).map Int.ofNat

/-- `Cyclic._select_row_index`:
`self._row_index = (1 + self._row_index) % self._n_rows;
return self._order[self._row_index]`.  The state is `_row_index`
(initialised to `-1`); Python's `%` on a positive modulus agrees with
`Int.emod`. -/
def cyclic_select_row_index (nRows : ℕ) (order : List Int) (rowIndex : Int)
    (_xk : List ℚ) : Int × Int :=
  let ri := (1 + rowIndex) % (nRows : Int)
  (order.getD ri.toNat 0, ri)

/-- The `_row_index` state after `n` calls of the Cyclic selector, fed an
arbitrary stream `xks` of iterates. -/
def cyclicStateAfter (nRows : ℕ) (order : List Int) (xks : ℕ → List ℚ) : ℕ → Int
  | 0 => -1
  | n + 1 =>
      (cyclic_select_row_index nRows order (cyclicStateAfter nRows order xks n) (xks n)).2

/-- The row index returned by the `(n+1)`-th call of the Cyclic selector. -/
def cyclicOutput (nRows : ℕ) (order : List Int) (xks : ℕ → List ℚ) (n : ℕ) : Int :=
  (cyclic_select_row_index nRows order (cyclicStateAfter nRows order xks n) (xks n)).1

theorem cyclicStateAfter_succ (m : ℕ) (hm : 0 < m) (order : List Int)
    (xks : ℕ → List ℚ) : ∀ n : ℕ,
    cyclicStateAfter m order xks (n + 1) = ((n % m : ℕ) : Int) := by
  have hmz : (m : Int) ≠ 0 := by exact_mod_cast Nat.pos_iff_ne_zero.mp hm
  intro n
  induction n with
  | zero =>
    show ((1 : Int) + -1) % (m : Int) = ((0 % m : ℕ) : Int)
    simp [Nat.zero_mod]
  | succ n ih =>
    show ((1 : Int) + cyclicStateAfter m order xks (n + 1)) % (m : Int) = _
    rw [ih]
    have h1 : ((1 : Int) + ((n % m : ℕ) : Int)) % (m : Int) =
        ((1 : Int) + (n : Int)) % (m : Int) := by
      conv_rhs => rw [Int.add_emod 1 (n : Int)]
      rw [Int.add_emod 1 ((n % m : ℕ) : Int)]
      congr 2
      push_cast
      rw [Int.emod_emod_of_dvd _ dvd_rfl]
    rw [h1]
    push_cast
    ring_nf

theorem getD_defaultOrder (m i : ℕ) (hi : i < m) :
    (cyclicDefaultOrder m).getD i 0 = (i : Int) := by
  rw [cyclicDefaultOrder, List.getD_eq_getElem?_getD, List.getElem?_map,
    List.getElem?_range hi]
  rfl

/-- C7: on an `m`-row system the Cyclic selector's `(n+1)`-th call returns
`order[n % m]` — independent of the stream of iterates it is passed — and
with the default order this is `0, 1, …, m-1, 0, 1, …`, i.e. `n % m`. -/
theorem cyclic_select_spec (m : ℕ) (order : List Int) (xks : ℕ → List ℚ) (n : ℕ)
    (hm : 0 < m) :
    cyclicOutput m order xks n = order.getD (n % m) 0 ∧
    cyclicOutput m (cyclicDefaultOrder m) xks n = ((n % m : ℕ) : Int) := by
  have hmz : (m : Int) ≠ 0 := by exact_mod_cast Nat.pos_iff_ne_zero.mp hm
  have hri : ∀ ord : List Int,
      (cyclic_select_row_index m ord (cyclicStateAfter m ord xks n) (xks n)).2 =
        ((n % m : ℕ) : Int) := by
    intro ord
    exact cyclicStateAfter_succ m hm ord xks n
  have hout : ∀ ord : List Int,
      cyclicOutput m ord xks n = ord.getD (n % m) 0 := by
    intro ord
    have hstate := hri ord
    rw [cyclicOutput, cyclic_select_row_index]
    rw [cyclic_select_row_index] at hstate
    simp only at hstate ⊢
    rw [hstate]
    congr 1
  refine ⟨hout order, ?_⟩
  rw [hout (cyclicDefaultOrder m)]
  exact getD_defaultOrder m (n % m) (Nat.mod_lt n hm)

/-- Witness for C7: a 3-row system with custom order `[2, 0, 1]`, at the
4th call (`n = 3`), fed a constant iterate stream. -/
theorem cyclic_select_spec_witness :
    cyclicOutput 3 [2, 0, 1] (fun _ => [0]) 3 = ([2, 0, 1] : List Int).getD (3 % 3) 0 ∧
    cyclicOutput 3 (cyclicDefaultOrder 3) (fun _ => [0]) 3 = ((3 % 3 : ℕ) : Int) :=
  cyclic_select_spec 3 [2, 0, 1] (fun _ => [0]) 3 (by decide)

/-! ## C8: the WindowedQuantile strategy
(src/kaczmarz/_variants.py lines 195-224 over lines 159-168) -/

/-- `np.isclose(a, b)` with its default `rtol = 1e-5`, `atol = 1e-8`:
`|a - b| <= atol + rtol * |b|`. -/
def npIsclose (a b : ℚ) : Bool :=
  decide (|a - b| ≤ 1 / 100000000 + (1 / 100000) * |b|)

/-- `np.quantile(l, q)` with the default linear interpolation between order
statistics: sort ascending, let `pos = q * (len - 1)`, and interpolate
between the entries at `⌊pos⌋` and `⌊pos⌋ + 1`. -/
def npQuantile (l : List ℚ) (q : ℚ) : ℚ :=
  let s := l.insertionSort (fun a b => a ≤ b)
  let pos := q * ((l.length : ℚ) - 1)
  let i := (⌊pos⌋).toNat
  let frac := pos - (⌊pos⌋ : ℚ)
  s.getD i 0 + frac * (s.getD (i + 1) (s.getD i 0) - s.getD i 0)

/-- `collections.deque` append with a `maxlen` bound: append on the right,
discarding from the left when the bound is exceeded. -/
def dequeAppend (maxlen : ℕ) (w : List ℚ) (x : ℚ) : List ℚ :=
  let l := w ++ [x]
  if maxlen < l.length then l.drop (l.length - maxlen) else l

/-- `WindowedQuantile.__init__` (src/kaczmarz/_variants.py lines 218-221):
`window_size = self._n_rows` when not supplied; the history is
`deque([], maxlen=window_size)`. -/
def windowedQuantileMaxlen (nRows : ℕ) (windowSize : Option ℕ) : ℕ :=
  windowSize.getD nRows

/-- `Quantile._distance` on the normalized system:
`np.abs(self._b[ik] - self._A[ik] @ xk)`. -/
def quantileDistance (A : List (List ℚ)) (b : List ℚ) (ik : ℕ) (xk : List ℚ) : ℚ :=
  |b.getD ik 0 - dot (A.getD ik []) xk|

/-- `Quantile._select_row_index` (src/kaczmarz/_variants.py lines 159-168)
as specialised by `WindowedQuantile`: the candidate `ik` (drawn by
`Random._select_row_index`, here an oracle input) has its distance computed
by `WindowedQuantile._distance` — which appends it to the window *before*
anything else — and the threshold is `np.quantile` of the window
(`WindowedQuantile._threshold_distances` returns the window itself); the
candidate is accepted iff `distance < threshold or np.isclose(...)`, else
`-1` is returned.  The result pairs the returned index with the new
window. -/
def wq_select_row_index (A : List (List ℚ)) (b : List ℚ) (q : ℚ) (maxlen : ℕ)
    (window : List ℚ) (ik : ℕ) (xk : List ℚ) : Int × List ℚ :=
  let distance := quantileDistance A b ik xk
  let window' := dequeAppend maxlen window distance
  let threshold := npQuantile window' q
  if decide (distance < threshold) || npIsclose distance threshold then
    ((ik : Int), window')
  else
    (-1, window')

theorem wq_select_row_index_snd (A : List (List ℚ)) (b : List ℚ) (q : ℚ)
    (maxlen : ℕ) (window : List ℚ) (ik : ℕ) (xk : List ℚ) :
    (wq_select_row_index A b q maxlen window ik xk).2 =
      dequeAppend maxlen window (quantileDistance A b ik xk) := by
  rw [wq_select_row_index]
  split <;> rfl

/-- The window contents after `n` calls, fed oracle candidate rows `iks`
and iterates `xks`. -/
def wqWindowAfter (A : List (List ℚ)) (b : List ℚ) (q : ℚ) (maxlen : ℕ)
    (iks : ℕ → ℕ) (xks : ℕ → List ℚ) : ℕ → List ℚ
  | 0 => []
  | n + 1 =>
      (wq_select_row_index A b q maxlen (wqWindowAfter A b q maxlen iks xks n)
        (iks n) (xks n)).2

/-- The distances of all the candidates sampled in the first `n` calls. -/
def wqCandidateDistances (A : List (List ℚ)) (b : List ℚ) (iks : ℕ → ℕ)
    (xks : ℕ → List ℚ) (n : ℕ) : List ℚ :=
  (List.range n).map (fun t => quantileDistance A b (iks t) (xks t))

theorem dequeAppend_drop (maxlen : ℕ) (D : List ℚ) (d : ℚ) :
    dequeAppend maxlen (D.drop (D.length - maxlen)) d =
      (D ++ [d]).drop (D.length + 1 - maxlen) := by
  rw [dequeAppend]
  rcases Nat.lt_or_ge D.length maxlen with hml | hml
  · have h0 : D.length - maxlen = 0 := by omega
    have hcond : ¬ maxlen < (D.drop (D.length - maxlen) ++ [d]).length := by
      rw [List.length_append, List.length_drop]
      simp only [List.length_singleton]
      omega
    rw [if_neg hcond, h0, List.drop_zero]
    have h1 : D.length + 1 - maxlen = 0 := by omega
    rw [h1, List.drop_zero]
  · have hlen : (D.drop (D.length - maxlen)).length = maxlen := by
      rw [List.length_drop]; omega
    have hcond : maxlen < (D.drop (D.length - maxlen) ++ [d]).length := by
      rw [List.length_append, hlen]
      simp
    rw [if_pos hcond, List.length_append, hlen]
    simp only [List.length_singleton]
    rcases Nat.eq_zero_or_pos maxlen with h0 | h1
    · subst h0
      rw [List.drop_eq_nil_of_le (by rw [List.length_append, hlen]; simp)]
      rw [List.drop_eq_nil_of_le (by simp [List.length_append])]
    · have hd1 : maxlen + 1 - maxlen = 1 := by omega
      rw [hd1, List.drop_append_of_le_length (by rw [hlen]; omega)]
      rw [List.drop_drop]
      rw [List.drop_append_of_le_length (by omega)]
      congr 2
      omega

/-- After `n` calls the window holds the distances of the most recent
`maxlen` candidates, drawn from *all* candidates sampled so far. -/
theorem wqWindowAfter_eq (A : List (List ℚ)) (b : List ℚ) (q : ℚ) (maxlen : ℕ)
    (iks : ℕ → ℕ) (xks : ℕ → List ℚ) : ∀ n : ℕ,
    wqWindowAfter A b q maxlen iks xks n =
      (wqCandidateDistances A b iks xks n).drop (n - maxlen) := by
  intro n
  induction n with
  | zero => simp [wqWindowAfter, wqCandidateDistances]
  | succ n ih =>
    have hDlen : (wqCandidateDistances A b iks xks n).length = n := by
      rw [wqCandidateDistances, List.length_map, List.length_range]
    have hDsucc : wqCandidateDistances A b iks xks (n + 1) =
        wqCandidateDistances A b iks xks n ++
          [quantileDistance A b (iks n) (xks n)] := by
      rw [wqCandidateDistances, wqCandidateDistances, List.range_succ,
        List.map_append]
      rfl
    rw [wqWindowAfter, wq_select_row_index_snd, ih, hDsucc]
    have := dequeAppend_drop maxlen (wqCandidateDistances A b iks xks n)
      (quantileDistance A b (iks n) (xks n))
    rw [hDlen] at this
    exact this

/-- Counterexample to C8: the window bound does *not* default to 100 — on a
3-row system with `window_size` unsupplied it is 3 — and the history does
*not* hold only accepted candidates' distances: on the system
`A = [[1], [1]]`, `b = [1, 5]`, with `quantile = 0`, window `[1]` and
candidate row 1 at `xk = [0]`, the candidate is rejected (`-1` returned)
yet its distance 5 is recorded in the window. -/
theorem windowed_quantile_counterexample :
    windowedQuantileMaxlen 3 none ≠ 100 ∧
    (wq_select_row_index [[1], [1]] [1, 5] 0 2 [1] 1 [0]).1 = -1 ∧
    (wq_select_row_index [[1], [1]] [1, 5] 0 2 [1] 1 [0]).2 = [1, 5] := by
  refine ⟨by decide, ?_, ?_⟩ <;>
    norm_num [wq_select_row_index, quantileDistance, dequeAppend, npQuantile,
      npIsclose, dot, List.insertionSort, List.orderedInsert]

/-- C8 amended: the WindowedQuantile acceptance threshold is the quantile of
a bounded history whose maximum length defaults to the *number of rows* of
the system, the history holds the distances of the most recent `maxlen`
*sampled candidates* (accepted or rejected), and it is updated on every
call before the threshold is computed: the decision of the `(n+1)`-th call
compares the candidate's distance against the quantile of the
already-updated window. -/
theorem windowed_quantile_spec (A : List (List ℚ)) (b : List ℚ) (q : ℚ)
    (maxlen nRows : ℕ) (iks : ℕ → ℕ) (xks : ℕ → List ℚ) (n : ℕ) :
    windowedQuantileMaxlen nRows none = nRows ∧
    wqWindowAfter A b q maxlen iks xks n =
      (wqCandidateDistances A b iks xks n).drop (n - maxlen) ∧
    (wq_select_row_index A b q maxlen (wqWindowAfter A b q maxlen iks xks n)
        (iks n) (xks n)).1 =
      (if decide (quantileDistance A b (iks n) (xks n) <
            npQuantile (wqWindowAfter A b q maxlen iks xks (n + 1)) q) ||
          npIsclose (quantileDistance A b (iks n) (xks n))
            (npQuantile (wqWindowAfter A b q maxlen iks xks (n + 1)) q)
        then ((iks n : ℕ) : Int) else -1) := by
  refine ⟨rfl, wqWindowAfter_eq A b q maxlen iks xks n, ?_⟩
  have hwin : wqWindowAfter A b q maxlen iks xks (n + 1) =
      dequeAppend maxlen (wqWindowAfter A b q maxlen iks xks n)
        (quantileDistance A b (iks n) (xks n)) := by
    rw [wqWindowAfter, wq_select_row_index_snd]
  rw [hwin, wq_select_row_index]
  split <;> rfl

/-- Witness for the amended C8: 2-row system `A = [[1], [1]]`,
`b = [1, 5]`, `quantile = 0`, default-size window, constant candidate
stream `1` and iterate stream `[0]`, after one call. -/
theorem windowed_quantile_spec_witness :
    windowedQuantileMaxlen 2 none = 2 ∧
    wqWindowAfter [[1], [1]] [1, 5] 0 2 (fun _ => 1) (fun _ => [0]) 1 =
      (wqCandidateDistances [[1], [1]] [1, 5] (fun _ => 1) (fun _ => [0]) 1).drop
        (1 - 2) ∧
    (wq_select_row_index [[1], [1]] [1, 5] 0 2
        (wqWindowAfter [[1], [1]] [1, 5] 0 2 (fun _ => 1) (fun _ => [0]) 1)
        1 [0]).1 =
      (if decide (quantileDistance [[1], [1]] [1, 5] 1 [0] <
            npQuantile
              (wqWindowAfter [[1], [1]] [1, 5] 0 2 (fun _ => 1) (fun _ => [0]) 2) 0) ||
          npIsclose (quantileDistance [[1], [1]] [1, 5] 1 [0])
            (npQuantile
              (wqWindowAfter [[1], [1]] [1, 5] 0 2 (fun _ => 1) (fun _ => [0]) 2) 0)
        then ((1 : ℕ) : Int) else -1) :=
  windowed_quantile_spec [[1], [1]] [1, 5] 0 2 2 (fun _ => 1) (fun _ => [0]) 1

/-! ## C9, C10: the orthogonality-graph strategies
(src/kaczmarz/_variants.py lines 227-286 and 358-384) -/

/-- `RandomOrthoGraph.__init__`:
`self._selectable = self._A @ self._x0 - self._b != 0`, the elementwise
nonzero test on the initial residual. -/
def selectableInit (A : List (List ℚ)) (b x0 : List ℚ) : List Bool :=
  List.zipWith (fun ax bi => decide (ax - bi ≠ 0)) (matVec A x0) b

/-- `p[~selectable] = 0`: zero out the probabilities of unselectable rows. -/
def maskProbs (p : List ℚ) (sel : List Bool) : List ℚ :=
  List.zipWith (fun pi si => if si then pi else 0) p sel

/-- `RandomOrthoGraph._update_selectable`: the chosen row's neighbours
(rows not orthogonal to it) become selectable, the chosen row itself
becomes unselectable. -/
def update_selectable (neighbors : ℕ → List ℕ) (sel : List Bool) (ik : ℕ) :
    List Bool :=
  ((neighbors ik).foldl (fun s j => s.set j true) sel).set ik false

/-- `RandomOrthoGraph._select_row_index` (src/kaczmarz/_variants.py lines
266-272), with `np.random.choice` abstracted as the oracle `choice`.  When
`p.sum() == 0` the division `p /= p.sum()` floods `p` with NaN and
`np.random.choice` then raises `ValueError`; the model makes that failure
an explicit error at the zero-sum division. -/
def rog_select_row_index (neighbors : ℕ → List ℕ) (choice : List ℚ → ℕ)
    (p : List ℚ) (sel : List Bool) : Except String (ℕ × List Bool) :=
  let p1 := maskProbs p sel
  if p1.sum = 0 then
    .error "division by p.sum() == 0: probabilities contain NaN"
  else
    let p2 := p1.map (fun x => x / p1.sum)
    let ik := choice p2
    .ok (ik, update_selectable neighbors sel ik)

/-- The `while` loop of `ParallelOrthoUpdate._select_row_index`
(src/kaczmarz/_variants.py lines 378-384): while the batch is not yet of
size `q` and some row is still selectable, renormalize the masked
probabilities, sample a row, append it to the batch and drop its
neighbours from the candidate pool.  The batch grows by one every
iteration, so `q - len(tauk)` (the fuel) decreases; the renormalization is
modelled with ℚ's total division, which the claims proved here never
exercise at a zero sum. -/
def parallel_ortho_loop (neighbors : ℕ → List ℕ) (choice : List ℚ → ℕ) :
    ℕ → List Bool → List ℚ → List Int → List Int
  | 0, _, _, tauk => tauk
  | fuel + 1, currSel, currP, tauk =>
      if currSel.any (fun s => s) then
        let p1 := maskProbs currP currSel
        let p2 := p1.map (fun x => x / p1.sum)
        let i := choice p2
        let currSel' := (neighbors i).foldl (fun s j => s.set j false) currSel
        parallel_ortho_loop neighbors choice fuel currSel' p2 (tauk ++ [(i : Int)])
      else tauk

/-- `ParallelOrthoUpdate._select_row_index` (src/kaczmarz/_variants.py
lines 378-384): run the greedy loop on a copy of the selectable set, then
apply `_update_selectable` for every chosen row to the engine's own
selectable set, and return the batch. -/
def pou_select_row_index (q : ℕ) (neighbors : ℕ → List ℕ)
    (choice : List ℚ → ℕ) (p : List ℚ) (sel : List Bool) :
    List Int × List Bool :=
  let tauk := parallel_ortho_loop neighbors choice q sel p []
  (tauk, tauk.foldl (fun s i => update_selectable neighbors s i.toNat) sel)

theorem any_eq_false_of_all_false (l : List Bool) (h : ∀ bo ∈ l, bo = false) :
    l.any (fun s => s) = false := by
  simp only [List.any_eq_false]
  intro x hx
  simp [h x hx]

/-- C9: when the selectable set is entirely false at selection time,
`ParallelOrthoUpdate._select_row_index` returns the empty batch (and
leaves the selectable set unchanged); an engine advance whose selector
returns the empty batch leaves `xk` unchanged — the batched update over
`[]` is the identity — yet increments `k`, and the `ik` accessor
afterwards reports the empty batch, which is *not* the `-1` skip
sentinel. -/
theorem parallel_ortho_empty_batch {σ : Type} (cfg : EngineCfg σ)
    (s : EngineState σ) (x : List ℚ) (q : ℕ) (neighbors : ℕ → List ℕ)
    (choice : List ℚ → ℕ) (p : List ℚ) (sel : List Bool)
    (hallf : ∀ bo ∈ sel, bo = false)
    (hk : 0 ≤ s.k) (hx : s.xk = some x)
    (hstop : stopping_criterion cfg s.k x = false)
    (hsel : (cfg.select s.strat x).1 = .batch []) :
    pou_select_row_index q neighbors choice p sel = ([], sel) ∧
    ∃ s', next cfg s = .yielded x x s' ∧ s'.xk = s.xk ∧ s'.k = s.k + 1 ∧
      ikAccessor s' = .batch [] ∧ ikAccessor s' ≠ .idx (-1) := by
  constructor
  · have hloop : parallel_ortho_loop neighbors choice q sel p [] = [] := by
      cases q with
      | zero => rfl
      | succ fuel =>
        rw [parallel_ortho_loop]
        rw [if_neg (by rw [any_eq_false_of_all_false sel hallf]; exact Bool.false_ne_true)]
    rw [pou_select_row_index]
    simp only [hloop]
    rfl
  · have hkne : ¬ s.k = -1 := by omega
    have hget : s.xk.getD [] = x := by rw [hx]; rfl
    have hskip : ikIsSkip (cfg.select s.strat x).1 = false := by
      rw [hsel]; rfl
    have hupd : applyUpdate cfg (cfg.select s.strat x).1 x = x := by
      rw [hsel]; rfl
    refine ⟨⟨s.k + 1, (cfg.select s.strat x).1, some x, (cfg.select s.strat x).2⟩,
      ?_, by simp [hx], rfl, by rw [ikAccessor, hsel], by rw [ikAccessor, hsel]; simp⟩
    rw [next, if_neg hkne]
    simp only [hget, hstop, Bool.false_eq_true, if_false, hskip, hupd, if_false]

/-- Concrete engine for the C9 witness: a selector that always returns the
empty batch on the 1×1 system. -/
def cfgEmptyBatch : EngineCfg Unit :=
  { A := [[1]], b := [1], x0 := [0], tol := none, maxiter := 5,
    select := fun s _ => (.batch [], s) }

theorem parallel_ortho_empty_batch_witness :
    pou_select_row_index 1 (fun _ => [0]) (fun _ => 0) [1] [false] = ([], [false]) ∧
    ∃ s', next cfgEmptyBatch ⟨0, .idx (-1), some [0], ()⟩ = .yielded [0] [0] s' ∧
      s'.xk = (⟨0, .idx (-1), some [0], ()⟩ : EngineState Unit).xk ∧
      s'.k = (⟨0, .idx (-1), some [0], ()⟩ : EngineState Unit).k + 1 ∧
      ikAccessor s' = .batch [] ∧ ikAccessor s' ≠ .idx (-1) :=
  parallel_ortho_empty_batch cfgEmptyBatch ⟨0, .idx (-1), some [0], ()⟩ [0] 1
    (fun _ => [0]) (fun _ => 0) [1] [false]
    (by decide) (by decide) rfl
    (by
      rw [stopping_criterion]
      norm_num [cfgEmptyBatch, tol_triggered])
    rfl

theorem zipWith_self_nonzero_test (b : List ℚ) :
    List.zipWith (fun ax bi => decide (ax - bi ≠ 0)) b b =
      List.replicate b.length false := by
  induction b with
  | nil => rfl
  | cons h t ih => simp [ih, List.replicate_succ]

theorem maskProbs_replicate_false_sum (p : List ℚ) :
    ∀ n : ℕ, (maskProbs p (List.replicate n false)).sum = 0 := by
  induction p with
  | nil => intro n; simp [maskProbs]
  | cons ph pt ih =>
    intro n
    cases n with
    | zero => simp [maskProbs]
    | succ m =>
      rw [List.replicate_succ, maskProbs, List.zipWith_cons_cons]
      simp only [if_false, List.sum_cons]
      rw [← maskProbs]
      rw [ih m]
      simp

/-- C10: on a `RandomOrthoGraph` engine constructed with `tol = None` and
an `x0` solving `A @ x0 = b` exactly, the initial selectable set is
all-false, the masked probability vector sums to zero so the first
`_select_row_index` call fails at the `p /= p.sum()` renormalization
instead of returning a row index or the skip sentinel — and the engine
would indeed reach that call, since with `tol = None` and `0 < maxiter`
the stopping criterion does not fire at `k = 0`. -/
theorem rog_zero_sum_failure {σ : Type} (cfg : EngineCfg σ) (x0 p : List ℚ)
    (neighbors : ℕ → List ℕ) (choice : List ℚ → ℕ)
    (hsol : matVec cfg.A x0 = cfg.b)
    (htol : cfg.tol = none) (hmax : 0 < cfg.maxiter) :
    selectableInit cfg.A cfg.b x0 = List.replicate cfg.b.length false ∧
    rog_select_row_index neighbors choice p (selectableInit cfg.A cfg.b x0) =
      .error "division by p.sum() == 0: probabilities contain NaN" ∧
    stopping_criterion cfg 0 x0 = false := by
  have hinit : selectableInit cfg.A cfg.b x0 = List.replicate cfg.b.length false := by
    rw [selectableInit, hsol, zipWith_self_nonzero_test]
  refine ⟨hinit, ?_, ?_⟩
  · rw [hinit, rog_select_row_index]
    rw [if_pos (maskProbs_replicate_false_sum p cfg.b.length)]
  · rw [stopping_criterion, tol_triggered, htol]
    simp only [Bool.or_false]
    rw [decide_eq_false_iff_not]
    push_cast
    exact not_le.mpr hmax

/-- Witness for C10 on the engine `cfgRowZero 1` (`A = [[1]]`, `b = [1]`,
`tol = None`, `maxiter = 1`) with the exact solution `x0 = [1]` and the
default uniform weights `p = [1]`. -/
theorem rog_zero_sum_failure_witness :
    selectableInit (cfgRowZero 1).A (cfgRowZero 1).b [1] =
      List.replicate (cfgRowZero 1).b.length false ∧
    rog_select_row_index (fun _ => [0]) (fun _ => 0) [1]
        (selectableInit (cfgRowZero 1).A (cfgRowZero 1).b [1]) =
      .error "division by p.sum() == 0: probabilities contain NaN" ∧
    stopping_criterion (cfgRowZero 1) 0 [1] = false :=
  rog_zero_sum_failure (cfgRowZero 1) [1] [1] (fun _ => [0]) (fun _ => 0)
    (by norm_num [cfgRowZero, matVec, dot]) rfl (by norm_num [cfgRowZero])

end Kaczmarz
